import Mathlib

/-!
Shallow embedding of the DMA UART receive path from
`teensy-experiments/src/dma_uart.rs` and the panic handler from
`meter-reader/src/panic.rs`.

The driver state (`DmaUart`) holds the application read window
(`read_buffer: [u8; 1024]`, modelled as a `List Byte` whose length is kept
as a hypothesis) and its cursor `read_buffer_pos`.  The cross-context
globals (`RX_READY`, `RX_BUFFER`, the DMA peripheral) are gathered in
`SysState`.  Divergence (the `halt!` macro and the panic handler) is
modelled by `Except Halt`: an `Except.error` result models a fatal halt
that never returns to the application; the carried string is the logged
reason.  State-mutating primitives are additionally recorded as a
`List MicroOp` trace so that ordering claims (clear-interrupt before
slot write, flag store last, reserve before start-receive) are statable.

The DMA/UART hardware driver itself is not part of the repository; its
`start_receive` / `receive_complete` / `is_receive_interrupt` /
`receive_clear_interrupt` primitives are modelled from the spec's
collaborator interface (`HwState`).
-/

set_option linter.unusedVariables false

namespace TeensyDmaUart

/-- A received byte (`u8` in the source). -/
abbrev Byte := Nat

/-- `const DMA_RX_CHANNEL: usize = 7` in `dma_uart.rs`. -/
def DMA_RX_CHANNEL : Nat := 7

/-- `const RX_RESERV: usize = 1` in `dma_uart.rs`: the lookahead reservation. -/
def RX_RESERV : Nat := 1

/-- `const RX_BUF_SZ: usize = 64` in `dma_uart.rs`: ring buffer capacity. -/
def RX_BUF_SZ : Nat := 64

/-- The application read window capacity: `read_buffer: [u8; 1024]`. -/
def READ_BUF_SZ : Nat := 1024

/-- The `DmaUart` struct of `dma_uart.rs`: the application read window and
its cursor.  `read_buffer` is a byte array of length `READ_BUF_SZ`; the
length is carried as a hypothesis where it matters. -/
structure DmaUart where
  read_buffer : List Byte
  read_buffer_pos : Nat
deriving DecidableEq, Repr

/-- `DmaUart::get_buffer`: `&self.read_buffer[..self.read_buffer_pos]`. -/
def DmaUart.get_buffer (d : DmaUart) : List Byte :=
  d.read_buffer.take d.read_buffer_pos

/-- Semantics of Rust `slice::copy_within(count.., 0)`: element `i` becomes
the old element `i + count` for `i < len - count`; the last `count`
elements are left as they were.  (Defined for `count ≤ len`, as guaranteed
at the call site in `consume` by the clamp to `read_buffer_pos`.) -/
def copyWithinFrom (l : List Byte) (count : Nat) : List Byte :=
  l.drop count ++ l.drop (l.length - count)

/-- `DmaUart::consume`: clamps `count` to `read_buffer_pos`, shifts the
array left by the clamped count with `copy_within(count.., 0)`, and
decreases the cursor by the clamped count. -/
def DmaUart.consume (d : DmaUart) (count : Nat) : DmaUart :=
  let count := min count d.read_buffer_pos
  { read_buffer := copyWithinFrom d.read_buffer count,
    read_buffer_pos := d.read_buffer_pos - count }

/-- `DmaUart::clear`: `read_buffer = [0; 1024]; read_buffer_pos = 0`. -/
def DmaUart.clear (d : DmaUart) : DmaUart :=
  { read_buffer := List.replicate READ_BUF_SZ 0, read_buffer_pos := 0 }

/-- The drain loop of `DmaUart::poll`:
`for i in self.read_buffer_pos..end { self.read_buffer[i] = rx_buffer.pop().unwrap(); }`
where `end = read_buffer_pos + rx_buffer.len()`.  The third argument is the
ring buffer's readable bytes in pop (FIFO) order, so the recursion on it
performs exactly `end - read_buffer_pos` iterations and each `pop()`
yields the next byte.  `none` models the index-out-of-bounds panic raised
by `self.read_buffer[i]` when `i` reaches the array length. -/
def drainLoop (buf : List Byte) (pos : Nat) : List Byte → Option (List Byte)
  | [] => some buf
  | b :: rest =>
    if pos < buf.length then drainLoop (buf.set pos b) (pos + 1) rest
    else none

/-- Memory orderings named in the source (`Ordering::Acquire` etc.). -/
inductive MemOrder
  | acquire
  | release
  | seqcst
deriving DecidableEq, Repr

/-- State-mutating primitives, recorded in source order as a trace. -/
inductive MicroOp
  | loadFlag (o : MemOrder)
  | storeFlag (v : Bool) (o : MemOrder)
  | writeSlot (data : Option (List Byte))
  | takeSlot
  | clearIrq
  | receiveComplete
  | reserveBuf (n : Nat)
  | startReceive
  | compilerFence (o : MemOrder)
deriving DecidableEq, Repr

/-- Modelled from the spec's collaborator interface (the DMA/UART hardware
driver is out of scope of the repository): `armed` records that a
`start_receive` command is in flight, `pending` is what
`is_receive_interrupt()` returns, and `completed` is what
`receive_complete()` would return (the completed transfer's buffer,
taken out of the peripheral). -/
structure HwState where
  armed : Bool
  pending : Bool
  completed : Option (List Byte)
deriving DecidableEq, Repr

/-- Modelled from the spec: `start_receive(buffer) -> Result<(), DriverError>`;
the hardware rejects the command when a receive is already scheduled on
the channel (channel busy).  `none` models the `Err` case. -/
def HwState.start_receive (hw : HwState) : Option HwState :=
  if hw.armed then none else some { hw with armed := true }

/-- Modelled from the spec: once armed, the DMA engine fills the ring
buffer and raises the receive-complete interrupt; `d` is the received
data, in arrival order. -/
def HwState.complete (hw : HwState) (d : List Byte) : HwState :=
  { armed := false, pending := true, completed := some d }

/-- The whole system: the atomic `RX_READY`, the slot
`RX_BUFFER: Mutex<RefCell<Option<Circular<u8>>>>` (a ring buffer is its
list of readable bytes in pop order), the hardware channel, and the
`DmaUart` driver struct. -/
structure SysState where
  rxReady : Bool
  rxBuffer : Option (List Byte)
  hw : HwState
  drv : DmaUart
deriving DecidableEq, Repr

/-- A fatal halt (`halt!` after `log::error!`, or a panic): the carried
string is the logged reason.  A halt never returns to the application. -/
inductive Halt
  | halt (reason : String)
deriving DecidableEq, Repr

/-- The interrupt handler `DMA7_DMA23` of `dma_uart.rs`.  If
`is_receive_interrupt()` is false it does nothing; otherwise, in source
order: `receive_clear_interrupt()`, `receive_complete()` (taking the
`Option` out of the peripheral), write that option into `RX_BUFFER`, and
`RX_READY.store(true, Ordering::Release)`.  The returned trace records
that order. -/
def DMA7_DMA23 (s : SysState) : SysState × List MicroOp :=
  if s.hw.pending then
    ({ s with
        hw := { s.hw with pending := false, completed := none },
        rxBuffer := s.hw.completed,
        rxReady := true },
     [MicroOp.clearIrq, MicroOp.receiveComplete,
      MicroOp.writeSlot s.hw.completed, MicroOp.storeFlag true MemOrder.release])
  else (s, [])

/-- `DmaUart::poll`.  In source order: `RX_READY.load(Ordering::Acquire)`;
if false, return.  Otherwise `RX_READY.store(false, Ordering::Release)`;
take `RX_BUFFER` (halt if `None`); run the drain loop (an out-of-bounds
index panics, modelled as a halt); set `read_buffer_pos = end`; re-issue
`start_receive` with the drained (now empty) ring buffer, halting on
`Err`.  Note the re-arm path performs no `reserve` call. -/
def poll (s : SysState) : Except Halt SysState × List MicroOp :=
  if s.rxReady then
    let tr0 := [MicroOp.loadFlag MemOrder.acquire,
                MicroOp.storeFlag false MemOrder.release, MicroOp.takeSlot]
    match s.rxBuffer with
    | none => (Except.error (Halt.halt "Failed to acquire RX buffer."), tr0)
    | some ring =>
      match drainLoop s.drv.read_buffer s.drv.read_buffer_pos ring with
      | none => (Except.error (Halt.halt "index out of bounds"), tr0)
      | some buf =>
        let drv : DmaUart :=
          { read_buffer := buf,
            read_buffer_pos := s.drv.read_buffer_pos + ring.length }
        match s.hw.start_receive with
        | none =>
          (Except.error (Halt.halt "Error scheduling DMA receive"),
           tr0 ++ [MicroOp.startReceive])
        | some hw =>
          (Except.ok { rxReady := false, rxBuffer := none, hw := hw, drv := drv },
           tr0 ++ [MicroOp.startReceive])
  else (Except.ok s, [MicroOp.loadFlag MemOrder.acquire])

/-- `DmaUart::new`, given the initial hardware channel state.  In source
order: claim the channel and unmask the interrupt (no modelled state),
create the empty circular buffer, store it into `RX_BUFFER`, take it back
out, `reserve(RX_RESERV)`, `start_receive` (halting on `Err`), and
`RX_READY.store(false, Ordering::Release)`.  The trace records that
order. -/
def DmaUart.new (hw0 : HwState) : Except Halt (SysState × List MicroOp) :=
  match hw0.start_receive with
  | none => Except.error (Halt.halt "Error scheduling DMA receive")
  | some hw =>
    Except.ok
      ({ rxReady := false, rxBuffer := none, hw := hw,
         drv := { read_buffer := List.replicate READ_BUF_SZ 0,
                  read_buffer_pos := 0 } },
       [MicroOp.writeSlot (some []), MicroOp.takeSlot,
        MicroOp.reserveBuf RX_RESERV, MicroOp.startReceive,
        MicroOp.storeFlag false MemOrder.release])

/-- The state produced by `DmaUart::new` on a fresh (idle) channel. -/
def initState : SysState :=
  { rxReady := false, rxBuffer := none,
    hw := { armed := true, pending := false, completed := none },
    drv := { read_buffer := List.replicate READ_BUF_SZ 0, read_buffer_pos := 0 } }

/-- One transition of the system: a hardware completion (only possible
while armed), an invocation of the interrupt handler, a `poll()` that
returns (halting runs make no further transitions), or an application
call to `consume`/`clear`. -/
inductive Step : SysState → SysState → Prop
  | hwCompleteStep (s : SysState) (d : List Byte) :
      s.hw.armed = true → Step s { s with hw := s.hw.complete d }
  | irqStep (s : SysState) : Step s (DMA7_DMA23 s).1
  | pollStep (s s' : SysState) : (poll s).1 = Except.ok s' → Step s s'
  | consumeStep (s : SysState) (n : Nat) : Step s { s with drv := s.drv.consume n }
  | clearStep (s : SysState) : Step s { s with drv := s.drv.clear }

/-- States reachable from construction. -/
inductive Reachable : SysState → Prop
  | init : Reachable initState
  | step {s s' : SysState} : Reachable s → Step s s' → Reachable s'

/-- The protocol invariant: while the ready flag is set the slot is full,
the channel is not armed and no completion is pending; while a completion
interrupt is pending, the peripheral holds the completed buffer and the
channel is not armed. -/
def Inv (s : SysState) : Prop :=
  (s.rxReady = true →
    s.rxBuffer.isSome = true ∧ s.hw.armed = false ∧ s.hw.pending = false) ∧
  (s.hw.pending = true →
    s.hw.completed.isSome = true ∧ s.hw.armed = false)

theorem inv_init : Inv initState := by
  constructor <;> intro h <;> simp [initState] at h

theorem inv_step {s s' : SysState} (hinv : Inv s) (hstep : Step s s') : Inv s' := by
  obtain ⟨h1, h2⟩ := hinv
  cases hstep with
  | hwCompleteStep d harm =>
    refine ⟨?_, ?_⟩ <;> intro h
    · exact absurd ((h1 h).2.1) (by simp [harm])
    · simp [HwState.complete]
  | irqStep =>
    by_cases hp : s.hw.pending = true
    · obtain ⟨hc, ha⟩ := h2 hp
      refine ⟨?_, ?_⟩ <;> intro h <;> simp [DMA7_DMA23, hp] at *
      exact ⟨hc, ha⟩
    · simp only [Bool.not_eq_true] at hp
      simpa [DMA7_DMA23, hp] using ⟨h1, h2⟩
  | pollStep s' hok =>
    by_cases hr : s.rxReady = true
    · obtain ⟨hs, ha, hp⟩ := h1 hr
      match hslot : s.rxBuffer with
      | none => simp [hslot] at hs
      | some ring =>
        simp only [poll, hr, if_true, hslot] at hok
        match hdrain : drainLoop s.drv.read_buffer s.drv.read_buffer_pos ring with
        | none => simp [hdrain] at hok
        | some buf =>
          simp only [hdrain] at hok
          match hsr : s.hw.start_receive with
          | none => simp [hsr] at hok
          | some hw =>
            simp only [hsr, Except.ok.injEq] at hok
            have hwpend : hw.pending = s.hw.pending := by
              simp only [HwState.start_receive, ha, if_neg] at hsr
              cases hsr
              rfl
            subst hok
            refine ⟨?_, ?_⟩ <;> intro h
            · simp at h
            · rw [hwpend, hp] at h
              simp at h
    · simp only [Bool.not_eq_true] at hr
      simp only [poll, hr, if_neg, Bool.false_eq_true, not_false_eq_true,
        Except.ok.injEq] at hok
      subst hok
      exact ⟨h1, h2⟩
  | consumeStep n => exact ⟨fun h => h1 h, fun h => h2 h⟩
  | clearStep => exact ⟨fun h => h1 h, fun h => h2 h⟩

theorem inv_reachable {s : SysState} (h : Reachable s) : Inv s := by
  induction h with
  | init => exact inv_init
  | step _ hstep ih => exact inv_step ih hstep

/-- When the incoming bytes fit, the drain loop writes them contiguously at
the cursor and leaves the rest of the window unchanged. -/
theorem drainLoop_some (ring : List Byte) : ∀ (buf : List Byte) (pos : Nat),
    pos + ring.length ≤ buf.length →
    drainLoop buf pos ring
      = some (buf.take pos ++ ring ++ buf.drop (pos + ring.length)) := by
  induction ring with
  | nil =>
    intro buf pos h
    simp [drainLoop, List.take_append_drop]
  | cons b rest ih =>
    intro buf pos h
    have hlt : pos < buf.length := by
      simp only [List.length_cons] at h
      omega
    have hA : (buf.take pos).length = pos := by
      rw [List.length_take]
      exact Nat.min_eq_left (by omega)
    have hunf : drainLoop buf pos (b :: rest)
        = drainLoop (buf.set pos b) (pos + 1) rest := by
      simp only [drainLoop]
      rw [if_pos hlt]
    rw [hunf, ih (buf.set pos b) (pos + 1)
      (by rw [List.length_set]; simp only [List.length_cons] at h; omega)]
    have hset : buf.set pos b = buf.take pos ++ b :: buf.drop (pos + 1) :=
      List.set_eq_take_cons_drop b hlt
    have h1 : (buf.set pos b).take (pos + 1) = buf.take pos ++ [b] := by
      rw [hset]
      have hp1 : pos + 1 = (buf.take pos).length + 1 := by rw [hA]
      rw [hp1, List.take_append]
      rfl
    have h2 : (buf.set pos b).drop (pos + 1 + rest.length)
        = buf.drop (pos + 1 + rest.length) := by
      rw [hset]
      have hp2 : pos + 1 + rest.length = (buf.take pos).length + (rest.length + 1) := by
        rw [hA]
        omega
      rw [hp2, List.drop_append, List.drop_succ_cons, List.drop_drop, hA]
      congr 1
      omega
    have hidx : pos + (b :: rest).length = pos + 1 + rest.length := by
      simp only [List.length_cons]
      omega
    rw [hidx, h1, h2]
    simp [List.append_assoc]

/-- The drain loop panics (index out of bounds) exactly when there is at
least one incoming byte and the bytes do not fit the window. -/
theorem drainLoop_none_iff (ring : List Byte) : ∀ (buf : List Byte) (pos : Nat),
    drainLoop buf pos ring = none ↔ buf.length < pos + ring.length ∧ ring ≠ [] := by
  induction ring with
  | nil =>
    intro buf pos
    simp [drainLoop]
  | cons b rest ih =>
    intro buf pos
    by_cases hlt : pos < buf.length
    · have hunf : drainLoop buf pos (b :: rest)
          = drainLoop (buf.set pos b) (pos + 1) rest := by
        simp only [drainLoop]
        rw [if_pos hlt]
      rw [hunf, ih]
      cases rest with
      | nil =>
        simp only [List.length_set, List.length_nil, List.length_cons]
        constructor
        · rintro ⟨-, hne⟩
          exact absurd rfl hne
        · rintro ⟨hlen, -⟩
          exact absurd hlen (by omega)
      | cons c rs =>
        simp only [List.length_set, List.length_cons]
        constructor
        · rintro ⟨hlen, -⟩
          exact ⟨by omega, by simp⟩
        · rintro ⟨hlen, -⟩
          exact ⟨by omega, by simp⟩
    · have hunf : drainLoop buf pos (b :: rest) = none := by
        simp only [drainLoop]
        rw [if_neg hlt]
      simp only [hunf, List.length_cons, true_iff]
      exact ⟨by omega, by simp⟩

/-- A successful `poll()` on a ready state: the flag is cleared, the slot is
emptied, the channel is re-armed, and the ring's bytes are appended at the
cursor. -/
theorem poll_ok (s : SysState) (ring : List Byte)
    (hready : s.rxReady = true) (hslot : s.rxBuffer = some ring)
    (harmed : s.hw.armed = false)
    (hcap : s.drv.read_buffer_pos + ring.length ≤ s.drv.read_buffer.length) :
    (poll s).1 = Except.ok
      { rxReady := false, rxBuffer := none,
        hw := { s.hw with armed := true },
        drv := { read_buffer := s.drv.read_buffer.take s.drv.read_buffer_pos
                   ++ ring
                   ++ s.drv.read_buffer.drop (s.drv.read_buffer_pos + ring.length),
                 read_buffer_pos := s.drv.read_buffer_pos + ring.length } } := by
  have hsr : s.hw.start_receive = some { s.hw with armed := true } := by
    simp [HwState.start_receive, harmed]
  simp only [poll, hready, if_true, hslot, drainLoop_some ring _ _ hcap, hsr]

/-- Taking the first `pos + ring.length` bytes of a drained window yields
the old valid prefix followed by the ring's bytes. -/
theorem take_after_drain (buf ring : List Byte) (pos : Nat)
    (h : pos + ring.length ≤ buf.length) :
    (buf.take pos ++ ring ++ buf.drop (pos + ring.length)).take (pos + ring.length)
      = buf.take pos ++ ring := by
  have hA : (buf.take pos).length = pos := by
    rw [List.length_take]
    exact Nat.min_eq_left (by omega)
  have hlen : (buf.take pos ++ ring).length = pos + ring.length := by
    rw [List.length_append, hA]
  rw [← hlen, List.take_left]

/-- The old valid prefix of the window is untouched by a drain. -/
theorem take_prefix_after_drain (buf ring : List Byte) (pos : Nat)
    (h : pos ≤ buf.length) :
    (buf.take pos ++ ring ++ buf.drop (pos + ring.length)).take pos
      = buf.take pos := by
  have hA : (buf.take pos).length = pos := by
    rw [List.length_take]
    exact Nat.min_eq_left h
  rw [List.take_append_of_le_length (by rw [List.length_append, hA]; omega),
    List.take_append_of_le_length (by rw [hA]),
    List.take_take]
  simp

/-- One full reception cycle: hardware completes with data `d`, the
interrupt handler runs, then the application polls. -/
def driveCycle (s : SysState) (d : List Byte) : Except Halt SysState :=
  (poll (DMA7_DMA23 { s with hw := s.hw.complete d }).1).1

/-- `N` consecutive reception cycles. -/
def runCycles : SysState → List (List Byte) → Except Halt SysState
  | s, [] => Except.ok s
  | s, d :: ds =>
    match driveCycle s d with
    | Except.error e => Except.error e
    | Except.ok s' => runCycles s' ds

/-- A full cycle (complete, interrupt, poll) on a state whose window can
hold the incoming bytes: the driver ends drained and re-armed, with the
bytes appended at the cursor. -/
theorem driveCycle_ok (s : SysState) (d : List Byte)
    (hcap : s.drv.read_buffer_pos + d.length ≤ s.drv.read_buffer.length) :
    driveCycle s d = Except.ok
      { rxReady := false, rxBuffer := none,
        hw := { armed := true, pending := false, completed := none },
        drv := { read_buffer := s.drv.read_buffer.take s.drv.read_buffer_pos
                   ++ d
                   ++ s.drv.read_buffer.drop (s.drv.read_buffer_pos + d.length),
                 read_buffer_pos := s.drv.read_buffer_pos + d.length } } := by
  have hhandler : (DMA7_DMA23 { s with hw := s.hw.complete d }).1
      = { s with
          hw := { armed := false, pending := false, completed := none },
          rxBuffer := some d, rxReady := true } := by
    simp [DMA7_DMA23, HwState.complete]
  rw [driveCycle, hhandler]
  exact poll_ok
    { rxReady := true, rxBuffer := some d,
      hw := { armed := false, pending := false, completed := none },
      drv := s.drv } d rfl rfl rfl hcap

/-- `N` consecutive cycles whose total volume fits the window succeed and
concatenate the delivered bytes after the existing window contents. -/
theorem runCycles_ok (rings : List (List Byte)) : ∀ (s : SysState),
    s.drv.read_buffer_pos + (rings.map List.length).sum ≤ s.drv.read_buffer.length →
    ∃ s', runCycles s rings = Except.ok s'
      ∧ s'.drv.get_buffer = s.drv.get_buffer ++ rings.flatten
      ∧ s'.drv.read_buffer_pos
          = s.drv.read_buffer_pos + (rings.map List.length).sum
      ∧ s'.drv.read_buffer.length = s.drv.read_buffer.length := by
  induction rings with
  | nil =>
    intro s h
    exact ⟨s, rfl, by simp, by simp, rfl⟩
  | cons d ds ih =>
    intro s h
    simp only [List.map_cons, List.sum_cons] at h
    have hcap : s.drv.read_buffer_pos + d.length ≤ s.drv.read_buffer.length := by
      omega
    have hposle : s.drv.read_buffer_pos ≤ s.drv.read_buffer.length := by omega
    have hrun1 := driveCycle_ok s d hcap
    set buf1 : List Byte := s.drv.read_buffer.take s.drv.read_buffer_pos ++ d
      ++ s.drv.read_buffer.drop (s.drv.read_buffer_pos + d.length) with hbuf1
    set s1 : SysState :=
      { rxReady := false, rxBuffer := none,
        hw := { armed := true, pending := false, completed := none },
        drv := { read_buffer := buf1,
                 read_buffer_pos := s.drv.read_buffer_pos + d.length } } with hs1
    have hlen1 : buf1.length = s.drv.read_buffer.length := by
      rw [hbuf1, List.length_append, List.length_append, List.length_take,
        List.length_drop, Nat.min_eq_left hposle]
      omega
    obtain ⟨s', hrun, hgb, hpos, hlen⟩ := ih s1 (by
      show s.drv.read_buffer_pos + d.length + (ds.map List.length).sum ≤ buf1.length
      rw [hlen1]
      omega)
    refine ⟨s', ?_, ?_, ?_, ?_⟩
    · simp only [runCycles, hrun1]
      exact hrun
    · rw [hgb]
      have hgb1 : s1.drv.get_buffer = s.drv.get_buffer ++ d := by
        show buf1.take (s.drv.read_buffer_pos + d.length)
          = s.drv.read_buffer.take s.drv.read_buffer_pos ++ d
        exact take_after_drain _ _ _ hcap
      rw [hgb1, List.flatten_cons, List.append_assoc]
    · rw [hpos]
      show s.drv.read_buffer_pos + d.length + (ds.map List.length).sum
        = s.drv.read_buffer_pos + ((d.length :: (ds.map List.length)).sum)
      simp only [List.sum_cons]
      omega
    · rw [hlen]
      show buf1.length = s.drv.read_buffer.length
      exact hlen1

/-- The body of the `loop` in the panic handler of `panic.rs` iterated `n`
times: each iteration performs `atomic::compiler_fence(Ordering::SeqCst)`
and continues; no iteration can produce a return value, recorded as
`none : Option Empty`. -/
def panicIter : Nat → List MicroOp × Option Empty
  | 0 => ([], none)
  | n + 1 =>
    match panicIter n with
    | (tr, _) => (tr ++ [MicroOp.compilerFence MemOrder.seqcst], none)

/-- The panic handler of `meter-reader/src/panic.rs`: logs
`PANIC {info}` (first component) and then enters the fence loop
(second component, see `panicIter`). -/
def panicHandler (info : String) : String × (Nat → List MicroOp × Option Empty) :=
  ("PANIC " ++ info, panicIter)

/-- C2: For every reachable state of the system, whenever poll() observes
the Ready Flag as true, the Shared Slot is non-empty at that moment; the
Ready Flag is true only while the Shared Slot holds a buffer. -/
theorem c2_ready_implies_slot_nonempty (s : SysState)
    (h : Reachable s) (hr : s.rxReady = true) : s.rxBuffer.isSome = true :=
  ((inv_reachable h).1 hr).1

/-- Witness for C2: after one hardware completion and one interrupt, the
flag is observed true and the slot indeed holds a buffer. -/
theorem c2_ready_implies_slot_nonempty_witness :
    ((DMA7_DMA23 { initState with hw := initState.hw.complete [65] }).1).rxBuffer.isSome
      = true :=
  c2_ready_implies_slot_nonempty _
    (Reachable.step
      (Reachable.step Reachable.init (Step.hwCompleteStep initState [65] rfl))
      (Step.irqStep _))
    rfl

/-- `consume` shifts the valid window left by the clamped count. -/
theorem consume_get_buffer (d : DmaUart) (count : Nat)
    (hpos : d.read_buffer_pos ≤ d.read_buffer.length) :
    (d.consume count).get_buffer
      = d.get_buffer.drop (min count d.read_buffer_pos) := by
  have hk : min count d.read_buffer_pos ≤ d.read_buffer_pos := Nat.min_le_right _ _
  show (copyWithinFrom d.read_buffer (min count d.read_buffer_pos)).take
      (d.read_buffer_pos - min count d.read_buffer_pos)
    = (d.read_buffer.take d.read_buffer_pos).drop (min count d.read_buffer_pos)
  rw [copyWithinFrom,
    List.take_append_of_le_length (by rw [List.length_drop]; omega),
    List.drop_take]

/-- C3: `consume(count)` removes exactly the first `min(count, cursor)`
bytes, shifting the remaining valid bytes to index 0, and decreases the
cursor by `min(count, cursor)`; with `count > cursor` the cursor ends at 0
(never negative), and `consume(0)` leaves `get_buffer()` unchanged. -/
theorem c3_consume_spec (d : DmaUart) (count : Nat)
    (hpos : d.read_buffer_pos ≤ d.read_buffer.length) :
    (d.consume count).read_buffer_pos
        = d.read_buffer_pos - min count d.read_buffer_pos
    ∧ (d.consume count).get_buffer
        = d.get_buffer.drop (min count d.read_buffer_pos)
    ∧ (d.read_buffer_pos < count → (d.consume count).read_buffer_pos = 0)
    ∧ (d.consume 0).get_buffer = d.get_buffer := by
  refine ⟨rfl, consume_get_buffer d count hpos, ?_, ?_⟩
  · intro hlt
    show d.read_buffer_pos - min count d.read_buffer_pos = 0
    omega
  · rw [consume_get_buffer d 0 hpos]
    simp

/-- Witness for C3 on `read_buffer = [1,2,3,4]`, cursor 3, `consume 2`. -/
theorem c3_consume_spec_witness :
    ((DmaUart.mk [1, 2, 3, 4] 3).consume 2).get_buffer = [3]
    ∧ ((DmaUart.mk [1, 2, 3, 4] 3).consume 2).read_buffer_pos = 1 := by
  obtain ⟨h1, h2, -, -⟩ := c3_consume_spec (DmaUart.mk [1, 2, 3, 4] 3) 2 (by decide)
  constructor
  · rw [h2]
    decide
  · rw [h1]
    decide

/-- C6: on every invocation of the interrupt handler: if the
receive-complete condition is not pending, no state changes (and no
primitive runs); if it is pending, the handler clears the pending
condition at the hardware, retrieves the completed buffer, writes it into
the Shared Slot, and sets the Ready Flag last with release ordering — the
trace records exactly that order. -/
theorem c6_irq_handler_spec (s : SysState) :
    (s.hw.pending = false → DMA7_DMA23 s = (s, []))
    ∧ (s.hw.pending = true →
        (DMA7_DMA23 s).1.hw.pending = false
        ∧ (DMA7_DMA23 s).1.rxBuffer = s.hw.completed
        ∧ (DMA7_DMA23 s).1.rxReady = true
        ∧ (DMA7_DMA23 s).1.drv = s.drv
        ∧ (DMA7_DMA23 s).2
            = [MicroOp.clearIrq, MicroOp.receiveComplete,
               MicroOp.writeSlot s.hw.completed,
               MicroOp.storeFlag true MemOrder.release]
        ∧ (DMA7_DMA23 s).2.getLast?
            = some (MicroOp.storeFlag true MemOrder.release)) := by
  constructor
  · intro h
    simp [DMA7_DMA23, h]
  · intro h
    refine ⟨?_, ?_, ?_, ?_, ?_, ?_⟩ <;> simp [DMA7_DMA23, h]

/-- Witness for C6: a spurious invocation at the initial state changes
nothing; an invocation with the completion pending sets the flag and ends
its trace with the release store. -/
theorem c6_irq_handler_spec_witness :
    DMA7_DMA23 initState = (initState, [])
    ∧ (DMA7_DMA23 { initState with hw := initState.hw.complete [65] }).1.rxReady = true
    ∧ (DMA7_DMA23 { initState with hw := initState.hw.complete [65] }).2.getLast?
        = some (MicroOp.storeFlag true MemOrder.release) :=
  ⟨(c6_irq_handler_spec initState).1 rfl,
   ((c6_irq_handler_spec _).2 rfl).2.2.1,
   ((c6_irq_handler_spec _).2 rfl).2.2.2.2.2⟩

/-- C7: if the Ready Flag is false, `poll()` returns immediately with the
entire system state unchanged (window contents, cursor, slot, flag,
hardware), having executed only the acquire load of the flag. -/
theorem c7_poll_noop_when_not_ready (s : SysState) (h : s.rxReady = false) :
    poll s = (Except.ok s, [MicroOp.loadFlag MemOrder.acquire]) := by
  simp [poll, h]

/-- Witness for C7 at the initial state. -/
theorem c7_poll_noop_when_not_ready_witness :
    poll initState = (Except.ok initState, [MicroOp.loadFlag MemOrder.acquire]) :=
  c7_poll_noop_when_not_ready initState rfl

/-- C8: if the interrupt is pending but `receive_complete()` yields no
buffer, the handler still overwrites the Shared Slot with that empty
result and still sets the Ready Flag, so the next `poll()` finds the slot
empty and reaches the Fatal Halt branch instead of draining data. -/
theorem c8_empty_complete_poisons_slot (s : SysState)
    (hp : s.hw.pending = true) (hc : s.hw.completed = none) :
    (DMA7_DMA23 s).1.rxBuffer = none
    ∧ (DMA7_DMA23 s).1.rxReady = true
    ∧ (poll (DMA7_DMA23 s).1).1
        = Except.error (Halt.halt "Failed to acquire RX buffer.") := by
  have h1 : (DMA7_DMA23 s).1.rxBuffer = none := by
    simp [DMA7_DMA23, hp, hc]
  have h2 : (DMA7_DMA23 s).1.rxReady = true := by
    simp [DMA7_DMA23, hp]
  refine ⟨h1, h2, ?_⟩
  simp [poll, h1, h2]

/-- Witness for C8 at a concrete pending-but-empty hardware state. -/
theorem c8_empty_complete_poisons_slot_witness :
    (poll (DMA7_DMA23
      { initState with
        hw := { armed := false, pending := true, completed := none } }).1).1
      = Except.error (Halt.halt "Failed to acquire RX buffer.") :=
  (c8_empty_complete_poisons_slot
    { initState with
      hw := { armed := false, pending := true, completed := none } }
    rfl rfl).2.2

/-- C4: draining `ring` into a full-capacity window of length 1024: if
`cursor + ring.length > 1024`, `poll()` fatally halts (the out-of-bounds
array write panics) rather than writing past the window; under the
precondition `cursor + ring.length ≤ 1024`, every write of the drain loop
lands within bounds (the loop completes with the bytes placed inside the
window) and the out-of-bounds halt is unreachable. -/
theorem c4_window_overflow_halts (s : SysState) (ring : List Byte)
    (hlen : s.drv.read_buffer.length = READ_BUF_SZ)
    (hpos : s.drv.read_buffer_pos ≤ READ_BUF_SZ)
    (hready : s.rxReady = true) (hslot : s.rxBuffer = some ring) :
    (READ_BUF_SZ < s.drv.read_buffer_pos + ring.length →
      (poll s).1 = Except.error (Halt.halt "index out of bounds"))
    ∧ (s.drv.read_buffer_pos + ring.length ≤ READ_BUF_SZ →
      drainLoop s.drv.read_buffer s.drv.read_buffer_pos ring
        = some (s.drv.read_buffer.take s.drv.read_buffer_pos ++ ring
            ++ s.drv.read_buffer.drop (s.drv.read_buffer_pos + ring.length))
      ∧ (poll s).1 ≠ Except.error (Halt.halt "index out of bounds")) := by
  constructor
  · intro hover
    have hne : ring ≠ [] := by
      intro heq
      rw [heq] at hover
      simp only [List.length_nil, Nat.add_zero] at hover
      omega
    have hnone : drainLoop s.drv.read_buffer s.drv.read_buffer_pos ring = none :=
      (drainLoop_none_iff ring _ _).2 ⟨by omega, hne⟩
    simp [poll, hready, hslot, hnone]
  · intro hfit
    have hsome := drainLoop_some ring s.drv.read_buffer s.drv.read_buffer_pos
      (by omega)
    refine ⟨hsome, ?_⟩
    simp only [poll, hready, if_true, hslot, hsome]
    cases hsr : s.hw.start_receive with
    | none =>
      simp only [hsr, ne_eq, Except.error.injEq, Halt.halt.injEq]
      decide
    | some hw =>
      simp [hsr]

/-- Witness for C4: a drain of 2 bytes at cursor 1023 halts with the
out-of-bounds panic; a drain of 1 byte at cursor 0 does not. -/
theorem c4_window_overflow_halts_witness :
    (poll { rxReady := true, rxBuffer := some [65, 66],
            hw := { armed := false, pending := false, completed := none },
            drv := { read_buffer := List.replicate READ_BUF_SZ 0,
                     read_buffer_pos := 1023 } }).1
      = Except.error (Halt.halt "index out of bounds")
    ∧ (poll { rxReady := true, rxBuffer := some [65],
              hw := { armed := false, pending := false, completed := none },
              drv := { read_buffer := List.replicate READ_BUF_SZ 0,
                       read_buffer_pos := 0 } }).1
      ≠ Except.error (Halt.halt "index out of bounds") :=
  ⟨(c4_window_overflow_halts _ [65, 66] (by rw [List.length_replicate]) (by decide)
      rfl rfl).1 (by decide),
   ((c4_window_overflow_halts _ [65] (by rw [List.length_replicate]) (by decide)
      rfl rfl).2 (by decide)).2⟩

/-- C9: the public operations never deliver an error value to the
application: `poll` either succeeds or fatally halts with one of the three
failure reasons (slot unexpectedly empty, window overflow, hardware
rejection of the re-arm), while `get_buffer`, `consume` and `clear` are
total functions with no error outcome at all; the Fatal Halt primitive
logs the failure and then loops forever, performing a SeqCst compiler
fence on every iteration and never producing a return value. -/
theorem c9_no_error_returns :
    (∀ s : SysState,
      (∃ s', (poll s).1 = Except.ok s')
      ∨ (poll s).1 = Except.error (Halt.halt "Failed to acquire RX buffer.")
      ∨ (poll s).1 = Except.error (Halt.halt "index out of bounds")
      ∨ (poll s).1 = Except.error (Halt.halt "Error scheduling DMA receive"))
    ∧ (∀ info : String, (panicHandler info).1 = "PANIC " ++ info)
    ∧ (∀ (info : String) (n : Nat),
        (panicHandler info).2 n
          = (List.replicate n (MicroOp.compilerFence MemOrder.seqcst), none)) := by
  refine ⟨?_, fun info => rfl, ?_⟩
  · intro s
    by_cases hr : s.rxReady = true
    · cases hslot : s.rxBuffer with
      | none =>
        right; left
        simp [poll, hr, hslot]
      | some ring =>
        cases hdrain : drainLoop s.drv.read_buffer s.drv.read_buffer_pos ring with
        | none =>
          right; right; left
          simp [poll, hr, hslot, hdrain]
        | some buf =>
          cases hsr : s.hw.start_receive with
          | none =>
            right; right; right
            simp [poll, hr, hslot, hdrain, hsr]
          | some hw =>
            left
            refine ⟨{ rxReady := false, rxBuffer := none, hw := hw,
                      drv := { read_buffer := buf,
                               read_buffer_pos := s.drv.read_buffer_pos
                                 + ring.length } }, ?_⟩
            simp [poll, hr, hslot, hdrain, hsr]
    · left
      refine ⟨s, ?_⟩
      have hf : s.rxReady = false := by
        cases hb : s.rxReady
        · rfl
        · exact absurd hb hr
      simp [poll, hf]
  · intro info n
    induction n with
    | zero => rfl
    | succ n ih =>
      have ih' : panicIter n
          = (List.replicate n (MicroOp.compilerFence MemOrder.seqcst), none) := ih
      show panicIter (n + 1)
        = (List.replicate (n + 1) (MicroOp.compilerFence MemOrder.seqcst), none)
      simp only [panicIter]
      rw [ih']
      simp [List.replicate_succ']

/-- C5 counterexample: at a concrete ready state `poll()` completes a
successful drain and re-arm, and its full trace is the flag load, the flag
store, the slot take and `startReceive` — with no `reserveBuf` operation
anywhere: arming from `poll()` does not reserve the lookahead region
before issuing the start-receive command. -/
theorem c5_counterexample :
    (poll { rxReady := true, rxBuffer := some [65],
            hw := { armed := false, pending := false, completed := none },
            drv := { read_buffer := List.replicate READ_BUF_SZ 0,
                     read_buffer_pos := 0 } }).2
      = [MicroOp.loadFlag MemOrder.acquire,
         MicroOp.storeFlag false MemOrder.release,
         MicroOp.takeSlot, MicroOp.startReceive]
    ∧ ((poll { rxReady := true, rxBuffer := some [65],
               hw := { armed := false, pending := false, completed := none },
               drv := { read_buffer := List.replicate READ_BUF_SZ 0,
                        read_buffer_pos := 0 } }).1).toOption.isSome = true := by
  have hd := drainLoop_some [65] (List.replicate READ_BUF_SZ 0) 0
    (by rw [List.length_replicate]; decide)
  constructor <;>
    simp [poll, hd, HwState.start_receive, Except.toOption]

/-- C5 amended: the initial arm performed by `new` reserves the lookahead
region (`reserveBuf RX_RESERV`) immediately before issuing `startReceive`
and fatally halts if the hardware rejects the command; the re-arm
performed by `poll` after a successful drain issues `startReceive` with no
reserve call at all, and likewise fatally halts if the command is
rejected. -/
theorem c5_amended_arming (hw0 : HwState) (s : SysState) (ring : List Byte)
    (hready : s.rxReady = true) (hslot : s.rxBuffer = some ring)
    (hfit : s.drv.read_buffer_pos + ring.length ≤ s.drv.read_buffer.length) :
    (hw0.armed = false → DmaUart.new hw0 = Except.ok
        ({ rxReady := false, rxBuffer := none, hw := { hw0 with armed := true },
           drv := { read_buffer := List.replicate READ_BUF_SZ 0,
                    read_buffer_pos := 0 } },
         [MicroOp.writeSlot (some []), MicroOp.takeSlot,
          MicroOp.reserveBuf RX_RESERV, MicroOp.startReceive,
          MicroOp.storeFlag false MemOrder.release]))
    ∧ (hw0.armed = true →
        DmaUart.new hw0 = Except.error (Halt.halt "Error scheduling DMA receive"))
    ∧ ((poll s).2
        = [MicroOp.loadFlag MemOrder.acquire,
           MicroOp.storeFlag false MemOrder.release,
           MicroOp.takeSlot, MicroOp.startReceive]
      ∧ (∀ n, MicroOp.reserveBuf n ∉ (poll s).2)
      ∧ (s.hw.armed = true →
          (poll s).1 = Except.error (Halt.halt "Error scheduling DMA receive"))) := by
  have hdrain := drainLoop_some ring s.drv.read_buffer s.drv.read_buffer_pos hfit
  have htr : (poll s).2
      = [MicroOp.loadFlag MemOrder.acquire,
         MicroOp.storeFlag false MemOrder.release,
         MicroOp.takeSlot, MicroOp.startReceive] := by
    simp only [poll, hready, if_true, hslot, hdrain]
    cases hsr : s.hw.start_receive <;> simp [hsr]
  refine ⟨?_, ?_, htr, ?_, ?_⟩
  · intro h0
    simp [DmaUart.new, HwState.start_receive, h0]
  · intro h0
    simp [DmaUart.new, HwState.start_receive, h0]
  · intro n
    rw [htr]
    simp
  · intro harm
    simp only [poll, hready, if_true, hslot, hdrain]
    simp [HwState.start_receive, harm]

/-- Witness for the amended C5: concrete construction on an idle channel,
and a concrete successful re-arm trace from `poll`. -/
theorem c5_amended_arming_witness :
    DmaUart.new { armed := false, pending := false, completed := none }
      = Except.ok
        ({ rxReady := false, rxBuffer := none,
           hw := { armed := true, pending := false, completed := none },
           drv := { read_buffer := List.replicate READ_BUF_SZ 0,
                    read_buffer_pos := 0 } },
         [MicroOp.writeSlot (some []), MicroOp.takeSlot,
          MicroOp.reserveBuf RX_RESERV, MicroOp.startReceive,
          MicroOp.storeFlag false MemOrder.release])
    ∧ (poll { rxReady := true, rxBuffer := some [66],
              hw := { armed := false, pending := false, completed := none },
              drv := { read_buffer := List.replicate READ_BUF_SZ 0,
                       read_buffer_pos := 1 } }).2
      = [MicroOp.loadFlag MemOrder.acquire,
         MicroOp.storeFlag false MemOrder.release,
         MicroOp.takeSlot, MicroOp.startReceive] :=
  ⟨(c5_amended_arming { armed := false, pending := false, completed := none }
      { rxReady := true, rxBuffer := some [66],
        hw := { armed := false, pending := false, completed := none },
        drv := { read_buffer := List.replicate READ_BUF_SZ 0,
                 read_buffer_pos := 1 } }
      [66] rfl rfl (by rw [List.length_replicate]; decide)).1 rfl,
   ((c5_amended_arming { armed := false, pending := false, completed := none }
      { rxReady := true, rxBuffer := some [66],
        hw := { armed := false, pending := false, completed := none },
        drv := { read_buffer := List.replicate READ_BUF_SZ 0,
                 read_buffer_pos := 1 } }
      [66] rfl rfl (by rw [List.length_replicate]; decide)).2.2).1⟩

/-- C1 counterexample: a driver state with the Ready Flag set and the
Shared Slot holding a 2-byte ring buffer, but with the cursor at 1023:
`poll()` does not append those bytes and advance the cursor — it fatally
halts on the out-of-bounds write, so the claim as stated (quantifying over
every such driver state with no capacity precondition) is false. -/
theorem c1_counterexample :
    ({ rxReady := true, rxBuffer := some [65, 66],
       hw := { armed := false, pending := false, completed := none },
       drv := { read_buffer := List.replicate READ_BUF_SZ 0,
                read_buffer_pos := 1023 } } : SysState).rxReady = true
    ∧ ({ rxReady := true, rxBuffer := some [65, 66],
         hw := { armed := false, pending := false, completed := none },
         drv := { read_buffer := List.replicate READ_BUF_SZ 0,
                  read_buffer_pos := 1023 } } : SysState).rxBuffer = some [65, 66]
    ∧ (poll { rxReady := true, rxBuffer := some [65, 66],
              hw := { armed := false, pending := false, completed := none },
              drv := { read_buffer := List.replicate READ_BUF_SZ 0,
                       read_buffer_pos := 1023 } }).1
      = Except.error (Halt.halt "index out of bounds") := by
  have hnone : drainLoop (List.replicate READ_BUF_SZ 0) 1023 [65, 66] = none :=
    (drainLoop_none_iff [65, 66] _ _).2
      ⟨by rw [List.length_replicate]; decide, by decide⟩
  exact ⟨rfl, rfl, by simp [poll, hnone]⟩

/-- C1 amended: provided the channel is not already armed and the incoming
bytes fit the window (`cursor + n ≤ capacity`; otherwise `poll()` fatally
halts, see C4), `poll()` appends exactly the ring's bytes, in pop order,
at the cursor, advances the cursor by `n` and leaves the previously
buffered prefix `[0, old cursor)` unchanged; and across `N` consecutive
drain cycles whose total volume fits the window, `get_buffer()` returns
the concatenation of all drains in arrival order, with no duplication or
loss. -/
theorem c1_amended_round_trip (s : SysState) (ring : List Byte)
    (hready : s.rxReady = true) (hslot : s.rxBuffer = some ring)
    (harmed : s.hw.armed = false)
    (hcap : s.drv.read_buffer_pos + ring.length ≤ s.drv.read_buffer.length) :
    ((poll s).1 = Except.ok
      { rxReady := false, rxBuffer := none, hw := { s.hw with armed := true },
        drv := { read_buffer := s.drv.read_buffer.take s.drv.read_buffer_pos
                   ++ ring
                   ++ s.drv.read_buffer.drop (s.drv.read_buffer_pos + ring.length),
                 read_buffer_pos := s.drv.read_buffer_pos + ring.length } })
    ∧ (s.drv.read_buffer.take s.drv.read_buffer_pos ++ ring
         ++ s.drv.read_buffer.drop (s.drv.read_buffer_pos + ring.length)).take
           (s.drv.read_buffer_pos + ring.length)
       = s.drv.get_buffer ++ ring
    ∧ (s.drv.read_buffer.take s.drv.read_buffer_pos ++ ring
         ++ s.drv.read_buffer.drop (s.drv.read_buffer_pos + ring.length)).take
           s.drv.read_buffer_pos
       = s.drv.get_buffer
    ∧ (∀ (t : SysState) (rings : List (List Byte)),
        t.drv.read_buffer_pos + (rings.map List.length).sum
            ≤ t.drv.read_buffer.length →
        ∃ t', runCycles t rings = Except.ok t'
          ∧ t'.drv.get_buffer = t.drv.get_buffer ++ rings.flatten) := by
  refine ⟨poll_ok s ring hready hslot harmed hcap, ?_, ?_, ?_⟩
  · rw [take_after_drain _ _ _ hcap]
    rfl
  · exact take_prefix_after_drain _ _ _ (by omega)
  · intro t rings h
    obtain ⟨t', h1, h2, -, -⟩ := runCycles_ok rings t h
    exact ⟨t', h1, h2⟩

set_option maxRecDepth 10000 in
/-- Witness for the amended C1: draining 2 bytes into a fresh window. -/
theorem c1_amended_round_trip_witness :
    (poll { rxReady := true, rxBuffer := some [65, 66],
            hw := { armed := false, pending := false, completed := none },
            drv := { read_buffer := List.replicate READ_BUF_SZ 0,
                     read_buffer_pos := 0 } }).1
      = Except.ok
        { rxReady := false, rxBuffer := none,
          hw := { armed := true, pending := false, completed := none },
          drv := { read_buffer := [65, 66] ++ List.replicate 1022 0,
                   read_buffer_pos := 2 } } := by
  have h := (c1_amended_round_trip
    { rxReady := true, rxBuffer := some [65, 66],
      hw := { armed := false, pending := false, completed := none },
      drv := { read_buffer := List.replicate READ_BUF_SZ 0,
               read_buffer_pos := 0 } }
    [65, 66] rfl rfl rfl (by rw [List.length_replicate]; decide)).1
  rw [h]
  simp only [Except.ok.injEq]
  simp [READ_BUF_SZ, List.drop_replicate]

/-- C10: after `clear()` the cursor is 0 and `get_buffer()` is empty, and a
subsequent `poll()` with new ready data appends that data starting at
index 0, exactly as for a fresh window. -/
theorem c10_clear_resets (d : DmaUart) (s : SysState) (ring : List Byte)
    (hdrv : s.drv = d.clear) (hready : s.rxReady = true)
    (hslot : s.rxBuffer = some ring) (harmed : s.hw.armed = false)
    (hringlen : ring.length ≤ READ_BUF_SZ) :
    d.clear.read_buffer_pos = 0
    ∧ d.clear.get_buffer = []
    ∧ (poll s).1 = Except.ok
        { rxReady := false, rxBuffer := none, hw := { s.hw with armed := true },
          drv := { read_buffer := s.drv.read_buffer.take s.drv.read_buffer_pos
                     ++ ring
                     ++ s.drv.read_buffer.drop (s.drv.read_buffer_pos + ring.length),
                   read_buffer_pos := s.drv.read_buffer_pos + ring.length } }
    ∧ (s.drv.read_buffer.take s.drv.read_buffer_pos ++ ring
         ++ s.drv.read_buffer.drop (s.drv.read_buffer_pos + ring.length)).take
           (s.drv.read_buffer_pos + ring.length)
       = ring := by
  have hcap : s.drv.read_buffer_pos + ring.length ≤ s.drv.read_buffer.length := by
    rw [hdrv]
    show 0 + ring.length ≤ (List.replicate READ_BUF_SZ (0 : Byte)).length
    rw [List.length_replicate]
    omega
  refine ⟨rfl, rfl, poll_ok s ring hready hslot harmed hcap, ?_⟩
  rw [take_after_drain _ _ _ hcap, hdrv]
  show List.take 0 (List.replicate READ_BUF_SZ (0 : Byte)) ++ ring = ring
  rfl

set_option maxRecDepth 10000 in
/-- Witness for C10: clearing a window holding one byte, then polling a
single new byte. -/
theorem c10_clear_resets_witness :
    (DmaUart.mk [9] 1).clear.read_buffer_pos = 0
    ∧ (DmaUart.mk [9] 1).clear.get_buffer = []
    ∧ (poll { rxReady := true, rxBuffer := some [65],
              hw := { armed := false, pending := false, completed := none },
              drv := (DmaUart.mk [9] 1).clear }).1
      = Except.ok
        { rxReady := false, rxBuffer := none,
          hw := { armed := true, pending := false, completed := none },
          drv := { read_buffer := [65] ++ List.replicate 1023 0,
                   read_buffer_pos := 1 } } := by
  have h := c10_clear_resets (DmaUart.mk [9] 1)
    { rxReady := true, rxBuffer := some [65],
      hw := { armed := false, pending := false, completed := none },
      drv := (DmaUart.mk [9] 1).clear }
    [65] rfl rfl rfl rfl (by decide)
  refine ⟨h.1, h.2.1, ?_⟩
  rw [h.2.2.1]
  simp only [Except.ok.injEq]
  simp [READ_BUF_SZ, DmaUart.clear, List.drop_replicate]

end TeensyDmaUart
